import Mathlib

/-!
Shallow embedding of the install-provisioning core of `wiki-rust`
(`src/bin/wiki-create.rs`) and of the sitemap fetcher (`src/lib.rs`).

Modelling conventions:
* Rust strings are `List Char`; filesystem paths are lists of path
  segments (`List String`), as produced by `PathBuf::join`.
* The filesystem is a list of entries (path plus a directory flag); a
  path "exists" when some entry extends it.  Side effects (network
  calls, file writes, directory creation, removals, subprocess spawns,
  config persistence) are recorded in an event trace.
* Network, archive contents and subprocess exit behaviour are oracles
  passed as parameters; `cfg!(target_os)` compile-time branching is an
  explicit `Os` parameter.
* Rust `panic!`/`expect`/`assert!`/`exit(1)` all abort the calling
  sequence, exactly like `?`-propagated errors; both are modelled as
  `Except.error`.
* Tilde (home-directory) expansion in `canonical_dir` is resolved
  before the model: `WikiConfig.dir` stands for the already-expanded
  directory, so `canonical_dir()` is the identity.
-/

namespace WikiRust

/-- A filesystem path, as a list of segments (`PathBuf`). -/
abbrev Path := List String

/-- One filesystem object: its path and whether it is a directory. -/
structure FSEntry where
  path : Path
  isDir : Bool
deriving DecidableEq

/-- Errors of the tool.  Each constructor corresponds to one abort site
in `wiki-create.rs` (a `?`-propagated error, a `panic!`/`expect`, or an
`exit(1)`). -/
inductive Err where
  /-- `download_file`: transport failure (`expect`) or non-success
  status (`assert!`) or body-read/write failure (`?`). -/
  | downloadErr
  /-- `unzip`: `archive.by_index(0)?` fails on an empty archive. -/
  | zipIndexErr
  /-- `extract_node`: `Unrecognized archive file type` error. -/
  | unrecognizedArchive (p : Path)
  /-- `extract_node`: `panic!("Unable to find node install.")`. -/
  | missingArtifact
  /-- `install_wiki` `exit(1)` / `run_npm` `expect` when no node path
  has been recorded. -/
  | nodeNotFound
  /-- `run_npm`: `spawn()?` failed. -/
  | spawnErr
  /-- `run_npm`: `wait()?` failed. -/
  | waitErr
  /-- A `Branch` accessor panicked: repo segment missing. -/
  | parseErr
deriving DecidableEq

/-- Target platform, standing for `cfg!(target_os)`. -/
inductive Os where
  | windows
  | linux
deriving DecidableEq

/-- Outcome of spawning and waiting on a subprocess. -/
inductive SpawnOutcome where
  /-- `Command::spawn` returned an error. -/
  | spawnFail
  /-- the child spawned but `wait()` returned an error. -/
  | waitFail
  /-- the child spawned and exited with the given status code. -/
  | exited (code : Int)
deriving DecidableEq

/-! ## Branch spec resolver (`impl Branch`) -/

/-- `str::split` on a single-character separator: Rust's `split` never
yields an empty iterator, and `"".split(c)` yields `[""]`. -/
def splitOnChar (c : Char) : List Char → List (List Char)
  | [] => [[]]
  | x :: xs =>
    let rest := splitOnChar c xs
    if x = c then [] :: rest
    else
      match rest with
      | [] => [[x]]
      | r :: rs => (x :: r) :: rs

/-- A compact remote-bundle identifier, `owner/repo[:branch]`
(`struct Branch`). -/
structure Branch where
  path_spec : List Char
deriving DecidableEq

/-- `Branch::user_repo_branch`.  Splits on `:` then on `/`; the two
`.expect(...)` calls panic when the user or repo segment is absent
(modelled as `none`); the branch defaults to `master`. -/
def Branch.user_repo_branch (b : Branch) : Option (List Char × List Char × List Char) :=
  let parts := splitOnChar ':' b.path_spec
  let user_repo := parts.headD []
  match splitOnChar '/' user_repo with
  | [] => none
  | [_] => none
  | user :: repo :: _ =>
    some (user, repo,
      match parts with
      | _ :: b2 :: _ => b2
      | _ => "master".toList)

/-- `Branch::url`: `https://github.com/{user}/{repo}/archive/{branch}.zip`.
`Url::parse` is modelled as the identity on the formatted string. -/
def Branch.url (b : Branch) : Option (List Char) :=
  (b.user_repo_branch).map fun x =>
    "https://github.com/".toList ++ x.1 ++ '/' :: x.2.1 ++
      "/archive/".toList ++ x.2.2 ++ ".zip".toList

/-- `Branch::dir`: `{repo}-{branch}`. -/
def Branch.dirName (b : Branch) : Option (List Char) :=
  (b.user_repo_branch).map fun x => x.2.1 ++ '-' :: x.2.2

/-- `Branch::zip`: `{repo}-{branch}.zip`. -/
def Branch.zipName (b : Branch) : Option (List Char) :=
  (b.user_repo_branch).map fun x => x.2.1 ++ '-' :: x.2.2 ++ ".zip".toList

/-! Lemmas about `splitOnChar`. -/

theorem splitOnChar_ne_nil (c : Char) (l : List Char) : splitOnChar c l ≠ [] := by
  cases l with
  | nil => simp [splitOnChar]
  | cons x xs =>
    simp only [splitOnChar]
    split
    · simp
    · split <;> simp

theorem splitOnChar_of_not_mem {c : Char} {l : List Char} (h : c ∉ l) :
    splitOnChar c l = [l] := by
  induction l with
  | nil => rfl
  | cons x xs ih =>
    have hx : x ≠ c := fun hxc => h (hxc ▸ List.mem_cons_self x xs)
    have hxs : c ∉ xs := fun hm => h (List.mem_cons_of_mem x hm)
    simp only [splitOnChar, if_neg hx, ih hxs]

theorem splitOnChar_append {c : Char} {u : List Char} (v : List Char) (h : c ∉ u) :
    splitOnChar c (u ++ c :: v) = u :: splitOnChar c v := by
  induction u with
  | nil => simp [splitOnChar]
  | cons x xs ih =>
    have hx : x ≠ c := fun hxc => h (hxc ▸ List.mem_cons_self x xs)
    have hxs : c ∉ xs := fun hm => h (List.mem_cons_of_mem x hm)
    simp only [List.cons_append, splitOnChar, if_neg hx, List.append_eq, ih hxs]

theorem mem_headD_splitOnChar {c x : Char} {l : List Char}
    (h : x ∈ (splitOnChar c l).headD []) : x ∈ l := by
  induction l with
  | nil => simp [splitOnChar] at h
  | cons y ys ih =>
    simp only [splitOnChar] at h
    by_cases hy : y = c
    · simp [hy] at h
    · rw [if_neg hy] at h
      rcases hr : splitOnChar c ys with _ | ⟨r, rs⟩
      · exact absurd hr (splitOnChar_ne_nil c ys)
      · rw [hr] at h
        simp only [List.headD_cons, List.mem_cons] at h
        rcases h with h | h
        · exact h ▸ List.mem_cons_self y ys
        · exact List.mem_cons_of_mem y (ih (by simp [hr, h]))

theorem two_le_length_splitOnChar_of_mem {c : Char} {l : List Char}
    (h : c ∈ l) : 2 ≤ (splitOnChar c l).length := by
  induction l with
  | nil => simp at h
  | cons x xs ih =>
    simp only [splitOnChar]
    by_cases hx : x = c
    · rw [if_pos hx]
      have hpos : 0 < (splitOnChar c xs).length :=
        List.length_pos.mpr (splitOnChar_ne_nil c xs)
      simp only [List.length_cons]
      omega
    · rw [if_neg hx]
      have hc : c ∈ xs := by
        rcases List.mem_cons.mp h with h' | h'
        · exact absurd h'.symm hx
        · exact h'
      have h2 := ih hc
      rcases hr : splitOnChar c xs with _ | ⟨r, rs⟩
      · exact absurd hr (splitOnChar_ne_nil c xs)
      · rw [hr] at h2
        simp only [List.length_cons] at h2 ⊢
        omega

/-! ## Configuration data (`struct NodeConfig`, `struct WikiConfig`) -/

/-- `struct NodeConfig`: the runtime record. -/
structure NodeConfig where
  url : Option (List Char)
  path : Option Path
deriving DecidableEq

/-- `struct WikiConfig`: the install state.  `dir` is the (already
tilde-expanded) root directory. -/
structure WikiConfig where
  dir : Path
  wiki : Branch
  server : Branch
  client : Branch
  plugins : List Branch
  node : NodeConfig
deriving DecidableEq

/-- One observable side effect of the tool. -/
inductive Event where
  /-- an HTTP GET was issued (`reqwest::get`). -/
  | netGet (url : List Char)
  /-- a file was written (`std::fs::write` / `File::create` + copy). -/
  | fsWrite (p : Path)
  /-- `create_dir_all`. -/
  | mkDir (p : Path)
  /-- `remove_dir_all`. -/
  | rmDir (p : Path)
  /-- a subprocess was spawned (`Command::spawn`). -/
  | spawn (cmd : Path) (args : List String) (cwd : Path)
  /-- `WikiConfig::save` serialized the given config to
  `<dir>/config.yaml`. -/
  | saveDoc (cfg : WikiConfig)
deriving DecidableEq

/-- Filesystem plus the event trace, most recent event first. -/
structure World where
  fs : List FSEntry
  events : List Event
deriving DecidableEq

/-- `Path::exists`: some filesystem entry extends `p`. -/
def pExists (fs : List FSEntry) (p : Path) : Bool :=
  fs.any fun e => p.isPrefixOf e.path

/-- Write a file at `p`. -/
def writeFile (p : Path) (w : World) : World :=
  { fs := ⟨p, false⟩ :: w.fs, events := .fsWrite p :: w.events }

/-- `create_dir_all p`. -/
def createDirAll (p : Path) (w : World) : World :=
  { fs := ⟨p, true⟩ :: w.fs, events := .mkDir p :: w.events }

/-- `remove_dir_all p`: removes `p` and everything under it. -/
def removeDirAll (p : Path) (w : World) : World :=
  { fs := w.fs.filter fun e => ! p.isPrefixOf e.path,
    events := .rmDir p :: w.events }

/-- The network: maps a URL to `some` response body on a success
status, `none` on transport failure or non-success status. -/
abbrev Net := List Char → Option (List Char)

/-- One archive entry, with its already-sanitized relative path
(`sanitized_name()`) and whether its raw name ends in `/`. -/
structure ZipEntry where
  path : Path
  isDir : Bool
deriving DecidableEq

/-- Contents of any archive file on disk, by path. -/
abbrev ArchiveContents := Path → List ZipEntry

/-- Subprocess oracle: outcome of spawning `cmd args` in `cwd`. -/
abbrev Subproc := Path → List String → Path → SpawnOutcome

/-! ## WikiConfig operations -/

/-- `WikiConfig::canonical_dir` (tilde expansion pre-resolved). -/
def WikiConfig.canonical_dir (c : WikiConfig) : Path := c.dir

/-- The persisted document's path, `<dir>/config.yaml`. -/
def WikiConfig.configPath (c : WikiConfig) : Path :=
  c.canonical_dir ++ ["config.yaml"]

/-- `WikiConfig::exists`: the persisted document is on disk. -/
def WikiConfig.configExists (c : WikiConfig) (w : World) : Bool :=
  pExists w.fs c.configPath

/-- `WikiConfig::create_folder` (`create_dir_all` on the root;
io errors are not modelled). -/
def WikiConfig.create_folder (c : WikiConfig) (w : World) :
    Except Err Unit × World :=
  (.ok (), createDirAll c.canonical_dir w)

/-- `WikiConfig::download_file`: one blocking GET, then the body is
written to `dest_file`.  The GET itself is logged before the outcome
is known; transport failure / bad status abort. -/
def WikiConfig.download_file (net : Net) (url : List Char) (dest_file : Path)
    (w : World) : Except Err Unit × World :=
  let w := { w with events := .netGet url :: w.events }
  match net url with
  | none => (.error .downloadErr, w)
  | some _body => (.ok (), writeFile dest_file w)

/-- The fixed runtime-distribution URL for each platform. -/
def nodeUrl : Os → List Char
  | .windows => "https://nodejs.org/dist/v12.13.1/node-v12.13.1-win-x64.zip".toList
  | .linux => "https://nodejs.org/dist/v12.13.0/node-v12.13.0-linux-x64.tar.xz".toList

/-- Last path segment of the runtime URL
(`url.path_segments().unwrap().last().unwrap()`). -/
def nodeArchiveName : Os → String
  | .windows => "node-v12.13.1-win-x64.zip"
  | .linux => "node-v12.13.0-linux-x64.tar.xz"

/-- `WikiConfig::download_node`: skip if the archive is on disk
(recording nothing), else download and record the source URL. -/
def WikiConfig.download_node (os : Os) (net : Net) (c : WikiConfig)
    (w : World) : Except Err Unit × WikiConfig × World :=
  let url := nodeUrl os
  let node := c.canonical_dir ++ [nodeArchiveName os]
  if pExists w.fs node then (.ok (), c, w)
  else
    match WikiConfig.download_file net url node w with
    | (.error e, w) => (.error e, c, w)
    | (.ok _, w) =>
      (.ok (), { c with node := { c.node with url := some url } }, w)

/-- The entry-processing loop of `WikiConfig::unzip`.  A directory
entry whose output path already exists breaks out of the loop
("Skipping extraction."); file entries are written unconditionally,
creating the parent directory first when missing. -/
def unzipLoop (dest : Path) : List ZipEntry → World → World
  | [], w => w
  | e :: es, w =>
    let outpath := dest ++ e.path
    if e.isDir then
      if pExists w.fs outpath then w
      else unzipLoop dest es (createDirAll outpath w)
    else
      let w' := if pExists w.fs outpath.dropLast then w
                else createDirAll outpath.dropLast w
      unzipLoop dest es (writeFile outpath w')

/-- `WikiConfig::unzip`: `archive.by_index(0)?` fails on an empty
archive; otherwise the first entry's sanitized name is returned
whatever the loop does. -/
def WikiConfig.unzip (zc : ArchiveContents) (zip_file dest_dir : Path)
    (w : World) : Except Err Path × World :=
  match zc zip_file with
  | [] => (.error .zipIndexErr, w)
  | e0 :: es => (.ok e0.path, unzipLoop dest_dir (e0 :: es) w)

/-- Does the file name match the glob `node*.*`? -/
def isNodeArtifactName (s : String) : Bool :=
  "node".toList.isPrefixOf s.toList && (s.toList.drop 4).contains '.'

/-- The glob loop of `WikiConfig::extract_node`: first non-directory
entry directly under `dir` whose name matches `node*.*`. -/
def globNodeArtifact (dir : Path) (fs : List FSEntry) : Option Path :=
  (fs.find? fun e =>
      !e.isDir && dir.isPrefixOf e.path &&
        (e.path.length == dir.length + 1) &&
        isNodeArtifactName (e.path.getLastD "")).map (·.path)

/-- Is `sub` a contiguous sub-list of `l`? -/
def hasSubList [BEq α] (sub : List α) : List α → Bool
  | [] => sub.isEmpty
  | x :: xs => sub.isPrefixOf (x :: xs) || hasSubList sub xs

/-- `tar::Archive::unpack`: unconditionally materializes every entry
(no existence checks — the tar path is not idempotent). -/
def unpackTar (zc : ArchiveContents) (archive dest : Path) (w : World) : World :=
  (zc archive).foldl
    (fun w e =>
      if e.isDir then createDirAll (dest ++ e.path) w
      else writeFile (dest ++ e.path) w)
    w

/-- `WikiConfig::extract_node`.  Globs for the downloaded archive and
dispatches on its name: the `.tar.gz` branch in the source has an
empty body; the `.tar.xz` branch unpacks but does NOT record
`node.path`; the `.zip` branch records the extracted root. -/
def WikiConfig.extract_node (zc : ArchiveContents) (c : WikiConfig)
    (w : World) : Except Err Unit × WikiConfig × World :=
  match globNodeArtifact c.canonical_dir w.fs with
  | none => (.error .missingArtifact, c, w)
  | some p =>
    let name := (p.getLastD "").toList
    if hasSubList (".tar.xz".toList) name then
      (.ok (), c, unpackTar zc p c.canonical_dir w)
    else if hasSubList (".zip".toList) name then
      match WikiConfig.unzip zc p c.canonical_dir w with
      | (.error e, w) => (.error e, c, w)
      | (.ok root, w) =>
        (.ok (), { c with node := { c.node with path := some root } }, w)
    else (.error (.unrecognizedArchive p), c, w)

/-- `PathBuf::to_str` on a relative path, for npm arguments. -/
def pathToStr (p : Path) : String := "/".intercalate p

/-- `WikiConfig::wiki_dir` (`none` when the branch spec cannot be
resolved, in which case the Rust accessor panics). -/
def WikiConfig.wiki_dir (c : WikiConfig) : Option Path :=
  (c.wiki.dirName).map fun d => c.canonical_dir ++ [String.mk d]

/-- `WikiConfig::client_dir`. -/
def WikiConfig.client_dir (c : WikiConfig) : Option Path :=
  (c.client.dirName).map fun d => c.canonical_dir ++ [String.mk d]

/-- `WikiConfig::server_dir`. -/
def WikiConfig.server_dir (c : WikiConfig) : Option Path :=
  (c.server.dirName).map fun d => c.canonical_dir ++ [String.mk d]

/-- `WikiConfig::wiki_zip`. -/
def WikiConfig.wiki_zip (c : WikiConfig) : Option Path :=
  (c.wiki.zipName).map fun z => c.canonical_dir ++ [String.mk z]

/-- `WikiConfig::client_zip`. -/
def WikiConfig.client_zip (c : WikiConfig) : Option Path :=
  (c.client.zipName).map fun z => c.canonical_dir ++ [String.mk z]

/-- `WikiConfig::server_zip`. -/
def WikiConfig.server_zip (c : WikiConfig) : Option Path :=
  (c.server.zipName).map fun z => c.canonical_dir ++ [String.mk z]

/-- `WikiConfig::download_if_needed`: skip when the destination
exists, else delegate to `download_file`. -/
def WikiConfig.download_if_needed (net : Net) (url : List Char)
    (zip_file : Path) (w : World) : Except Err Unit × World :=
  if pExists w.fs zip_file then (.ok (), w)
  else WikiConfig.download_file net url zip_file w

/-- `WikiConfig::download_wiki`: the three bundle downloads in order
wiki, client, server; a panicking branch-spec accessor aborts. -/
def WikiConfig.download_wiki (net : Net) (c : WikiConfig) (w : World) :
    Except Err Unit × World :=
  match c.wiki.url, c.wiki_zip with
  | some u, some z =>
    match WikiConfig.download_if_needed net u z w with
    | (.error e, w) => (.error e, w)
    | (.ok _, w) =>
      match c.client.url, c.client_zip with
      | some u, some z =>
        match WikiConfig.download_if_needed net u z w with
        | (.error e, w) => (.error e, w)
        | (.ok _, w) =>
          match c.server.url, c.server_zip with
          | some u, some z => WikiConfig.download_if_needed net u z w
          | _, _ => (.error .parseErr, w)
      | _, _ => (.error .parseErr, w)
  | _, _ => (.error .parseErr, w)

/-- `WikiConfig::extract_wiki`: unzip the three bundles in order. -/
def WikiConfig.extract_wiki (zc : ArchiveContents) (c : WikiConfig)
    (w : World) : Except Err Unit × World :=
  match c.wiki_zip with
  | none => (.error .parseErr, w)
  | some z =>
    match WikiConfig.unzip zc z c.canonical_dir w with
    | (.error e, w) => (.error e, w)
    | (.ok _, w) =>
      match c.client_zip with
      | none => (.error .parseErr, w)
      | some z =>
        match WikiConfig.unzip zc z c.canonical_dir w with
        | (.error e, w) => (.error e, w)
        | (.ok _, w) =>
          match c.server_zip with
          | none => (.error .parseErr, w)
          | some z =>
            match WikiConfig.unzip zc z c.canonical_dir w with
            | (.error e, w) => (.error e, w)
            | (.ok _, w) => (.ok (), w)

/-- The platform-specific npm executable name. -/
def npmName : Os → String
  | .windows => "npm.cmd"
  | .linux => "npm"

/-- `WikiConfig::run_npm`.  Panics when no node path is recorded;
spawns `<dir>/<node.path>/<npm> --scripts-prepend-node-path=true
<args>` in `dir` and waits.  NOTE (the source's behaviour): the exit
status returned by `wait()` is dropped, so a child that exits with a
non-zero status still yields `Ok(())`. -/
def WikiConfig.run_npm (os : Os) (sp : Subproc) (c : WikiConfig)
    (dir : Path) (args : List String) (w : World) : Except Err Unit × World :=
  match c.node.path with
  | none => (.error .nodeNotFound, w)
  | some np =>
    let command_path := c.canonical_dir ++ np ++ [npmName os]
    let full_args := "--scripts-prepend-node-path=true" :: args
    let w := { w with events := .spawn command_path full_args dir :: w.events }
    match sp command_path full_args dir with
    | .spawnFail => (.error .spawnErr, w)
    | .waitFail => (.error .waitErr, w)
    | .exited _code => (.ok (), w)

/-- `WikiConfig::link_dep`: `npm install` then
`npm link <client_dir>` in `dir`. -/
def WikiConfig.link_dep (os : Os) (sp : Subproc) (c : WikiConfig)
    (dir : Path) (w : World) : Except Err Unit × World :=
  match WikiConfig.run_npm os sp c dir ["install"] w with
  | (.error e, w) => (.error e, w)
  | (.ok _, w) =>
    match c.client_dir with
    | none => (.error .parseErr, w)
    | some cd => WikiConfig.run_npm os sp c dir ["link", pathToStr cd] w

/-- `WikiConfig::install_wiki`: aborts (`exit(1)`) when no node path
is recorded; else links client deps, server deps, then installs the
core app's dependencies. -/
def WikiConfig.install_wiki (os : Os) (sp : Subproc) (c : WikiConfig)
    (w : World) : Except Err Unit × World :=
  if c.node.path = none then (.error .nodeNotFound, w)
  else
    match c.client_dir with
    | none => (.error .parseErr, w)
    | some cd =>
      match WikiConfig.link_dep os sp c cd w with
      | (.error e, w) => (.error e, w)
      | (.ok _, w) =>
        match c.server_dir with
        | none => (.error .parseErr, w)
        | some sd =>
          match WikiConfig.link_dep os sp c sd w with
          | (.error e, w) => (.error e, w)
          | (.ok _, w) =>
            match c.wiki_dir with
            | none => (.error .parseErr, w)
            | some wd => WikiConfig.run_npm os sp c wd ["install"] w

/-- `WikiConfig::save`: serialize the config to `<dir>/config.yaml`. -/
def WikiConfig.save (c : WikiConfig) (w : World) : Except Err Unit × World :=
  (.ok (),
    { fs := ⟨c.configPath, false⟩ :: w.fs,
      events := .saveDoc c :: w.events })

/-- `WikiConfig::create_wiki`: the `?`-chained create sequence. -/
def WikiConfig.create_wiki (os : Os) (net : Net) (zc : ArchiveContents)
    (sp : Subproc) (c : WikiConfig) (w : World) :
    Except Err Unit × WikiConfig × World :=
  match WikiConfig.create_folder c w with
  | (.error e, w) => (.error e, c, w)
  | (.ok _, w) =>
    match WikiConfig.download_node os net c w with
    | (.error e, c, w) => (.error e, c, w)
    | (.ok _, c, w) =>
      match WikiConfig.extract_node zc c w with
      | (.error e, c, w) => (.error e, c, w)
      | (.ok _, c, w) =>
        match WikiConfig.download_wiki net c w with
        | (.error e, w) => (.error e, c, w)
        | (.ok _, w) =>
          match WikiConfig.extract_wiki zc c w with
          | (.error e, w) => (.error e, c, w)
          | (.ok _, w) =>
            match WikiConfig.install_wiki os sp c w with
            | (.error e, w) => (.error e, c, w)
            | (.ok _, w) =>
              match WikiConfig.save c w with
              | (r, w) => (r, c, w)

/-- `WikiConfig::delete`: remove the whole install, but only when the
persisted document is present. -/
def WikiConfig.delete (c : WikiConfig) (w : World) : Except Err Unit × World :=
  if c.configExists w then (.ok (), removeDirAll c.canonical_dir w)
  else (.ok (), w)

/-- `WikiConfig::delete_node`: check-then-delete on the recorded
runtime path (used as recorded, i.e. relative). -/
def WikiConfig.delete_node (c : WikiConfig) (w : World) :
    Except Err Unit × World :=
  match c.node.path with
  | none => (.ok (), w)
  | some np =>
    if pExists w.fs np then (.ok (), removeDirAll np w)
    else (.ok (), w)

/-! ## Sitemap fetcher (`src/lib.rs`) -/

/-- `struct Entry`: one sitemap entry; `date` is the deserialized
timestamp (epoch milliseconds), whose ordering is preserved by the
`NaiveDateTime` conversion. -/
structure Entry where
  slug : List Char
  title : List Char
  date : Int
  synopsis : List Char
deriving DecidableEq

/-- Insert `e` into a date-ascending list, keeping it ascending. -/
def insertByDate (e : Entry) : List Entry → List Entry
  | [] => [e]
  | x :: xs =>
    if e.date ≤ x.date then e :: x :: xs else x :: insertByDate e xs

/-- `entries.sort_unstable_by_key(|e| e.date)`: a comparison sort by
`date`, modelled as insertion sort (the claim only depends on the
result being date-ascending, which any correct sort gives). -/
def sortByDate : List Entry → List Entry
  | [] => []
  | x :: xs => insertByDate x (sortByDate xs)

/-- `struct Sitemap`. -/
structure Sitemap where
  name : List Char
  entries : List Entry
deriving DecidableEq

/-- `Sitemap::from_url`: fetch and parse `<url>/system/sitemap.json`
(the network oracle returns the parsed entry array, `none` on
transport/parse failure), then sort ascending by date and reverse.
Host extraction for `name` is not modelled (irrelevant here). -/
def Sitemap.from_url (net : List Char → Option (List Entry))
    (url : List Char) : Except Err Sitemap :=
  match net (url ++ "/system/sitemap.json".toList) with
  | none => .error .downloadErr
  | some raw => .ok ⟨url, (sortByDate raw).reverse⟩

/-- Date-ascending comparison. -/
def dateLe (a b : Entry) : Prop := a.date ≤ b.date

instance : DecidableRel dateLe := fun a b => by
  unfold dateLe; infer_instance

/-! ## Auxiliary observables and concrete fixtures -/

/-- Number of network calls recorded in a trace. -/
def netCount (es : List Event) : Nat :=
  (es.filter fun e =>
    match e with
    | .netGet _ => true
    | _ => false).length

/-- No config persistence appears in the trace. -/
def noSave (es : List Event) : Prop := ∀ d, Event.saveDoc d ∉ es

/-- Decidable check that some config persistence appears in the
trace. -/
def hasSaveEvent (es : List Event) : Bool :=
  es.any fun e =>
    match e with
    | .saveDoc _ => true
    | _ => false

/-- A world with an empty filesystem and an empty trace. -/
def emptyWorld : World := ⟨[], []⟩

/-- Subprocess oracle on which every child spawns and exits with
status 1. -/
def spExit1 : Subproc := fun _ _ _ => .exited 1

/-- Subprocess oracle on which every child spawns and exits with
status 0. -/
def spExit0 : Subproc := fun _ _ _ => .exited 0

/-- Network on which every GET succeeds with an empty body. -/
def netOkEmpty : Net := fun _ => some []

/-- Archive-contents oracle: every archive holds a single root
directory entry `x`. -/
def zcOneDir : ArchiveContents := fun _ => [⟨["x"], true⟩]

/-- Archive-contents oracle: every archive holds one file entry
`a.txt` (no directory entry first). -/
def zcFileFirst : ArchiveContents := fun _ => [⟨["a.txt"], false⟩]

/-- Archive-contents oracle: every archive holds a single root
directory entry `r`. -/
def zcDirFirst : ArchiveContents := fun _ => [⟨["r"], true⟩]

/-- A config whose runtime record has a path but a fresh directory
otherwise. -/
def cfgNodeOnly : WikiConfig :=
  { dir := ["root"]
    wiki := ⟨"fedwiki/wiki".toList⟩
    server := ⟨"fedwiki/wiki-server".toList⟩
    client := ⟨"fedwiki/wiki-client".toList⟩
    plugins := []
    node := { url := none, path := some ["nodedir"] } }

/-- The default-shaped config over a fresh target directory `root`
(what `WikiConfig::new("root")` builds, with the home-relative default
replaced by the explicit directory). -/
def cfgFresh : WikiConfig :=
  { dir := ["root"]
    wiki := ⟨"fedwiki/wiki".toList⟩
    server := ⟨"fedwiki/wiki-server".toList⟩
    client := ⟨"fedwiki/wiki-client".toList⟩
    plugins := []
    node := { url := none, path := none } }

/-- A config whose runtime record points at `nd`. -/
def cfgC8 : WikiConfig :=
  { dir := ["root"]
    wiki := ⟨"fedwiki/wiki".toList⟩
    server := ⟨"fedwiki/wiki-server".toList⟩
    client := ⟨"fedwiki/wiki-client".toList⟩
    plugins := []
    node := { url := none, path := some ["nd"] } }

/-- A world holding the three bundle directories, the persisted
document and the runtime directory `nd`. -/
def worldC8 : World :=
  ⟨[⟨["root", "wiki-master"], true⟩,
    ⟨["root", "wiki-server-master"], true⟩,
    ⟨["root", "wiki-client-master"], true⟩,
    ⟨["root", "config.yaml"], false⟩,
    ⟨["nd", "bin"], false⟩], []⟩

/-- A partially provisioned directory: a bundle directory exists but
no persisted document. -/
def worldC10 : World := ⟨[⟨["root", "wiki-master"], true⟩], []⟩

/-- The destination already holds the archive's first entry (a plain
file `a.txt` under `d`). -/
def worldC6 : World := ⟨[⟨["d", "a.txt"], false⟩], []⟩

/-- The destination already holds the archive's root directory `r`. -/
def worldC6b : World := ⟨[⟨["d", "r"], true⟩], []⟩

/-- The world produced by one successful fetch of `u` to `z` from an
empty world. -/
def worldAfterFetch : World :=
  ⟨[⟨["z"], false⟩], [.fsWrite ["z"], .netGet "u".toList]⟩

/-- A sitemap entry with date 1. -/
def entryA : Entry := ⟨"a".toList, "A".toList, 1, []⟩

/-- A sitemap entry with date 5. -/
def entryB : Entry := ⟨"b".toList, "B".toList, 5, []⟩

/-- Sitemap network oracle returning the entries out of date order. -/
def netC9 : List Char → Option (List Entry) := fun _ => some [entryA, entryB]

theorem pairwise_insertByDate {e : Entry} {l : List Entry}
    (h : l.Pairwise dateLe) : (insertByDate e l).Pairwise dateLe := by
  induction l with
  | nil => simp [insertByDate, dateLe]
  | cons x xs ih =>
    rw [List.pairwise_cons] at h
    obtain ⟨hx, hxs⟩ := h
    by_cases hle : e.date ≤ x.date
    · rw [insertByDate, if_pos hle, List.pairwise_cons]
      refine ⟨?_, List.pairwise_cons.mpr ⟨hx, hxs⟩⟩
      intro y hy
      rcases List.mem_cons.mp hy with rfl | hy
      · exact hle
      · exact le_trans hle (hx y hy)
    · rw [insertByDate, if_neg hle, List.pairwise_cons]
      refine ⟨?_, ih hxs⟩
      intro y hy
      have hmem : y = e ∨ y ∈ xs := by
        clear hx hxs ih
        induction xs with
        | nil => simpa [insertByDate] using hy
        | cons z zs ihz =>
          rw [insertByDate] at hy
          split at hy
          · rcases List.mem_cons.mp hy with rfl | hy
            · exact Or.inl rfl
            · exact Or.inr hy
          · rcases List.mem_cons.mp hy with rfl | hy
            · exact Or.inr (List.mem_cons_self _ _)
            · rcases ihz hy with h | h
              · exact Or.inl h
              · exact Or.inr (List.mem_cons_of_mem _ h)
      rcases hmem with rfl | hy
      · exact le_of_not_le hle
      · exact hx y hy

theorem pairwise_sortByDate (l : List Entry) :
    (sortByDate l).Pairwise dateLe := by
  induction l with
  | nil => simp [sortByDate]
  | cons x xs ih => exact pairwise_insertByDate ih

/-! Lemmas: no step of the create sequence other than `save` ever
records a `saveDoc` event. -/

theorem noSave_nil : noSave [] := by
  intro d hm
  simp at hm

theorem noSave_cons {e : Event} {es : List Event}
    (h : noSave es) (he : ∀ d, e ≠ Event.saveDoc d) : noSave (e :: es) := by
  intro d hm
  rcases List.mem_cons.mp hm with hm | hm
  · exact he d hm.symm
  · exact h d hm

theorem noSave_writeFile (p : Path) (w : World) (h : noSave w.events) :
    noSave (writeFile p w).events :=
  noSave_cons h (fun d => by simp)

theorem noSave_createDirAll (p : Path) (w : World) (h : noSave w.events) :
    noSave (createDirAll p w).events :=
  noSave_cons h (fun d => by simp)

theorem noSave_download_file (net : Net) (url : List Char) (dest : Path)
    (w : World) (h : noSave w.events) :
    noSave (WikiConfig.download_file net url dest w).2.events := by
  simp only [WikiConfig.download_file]
  cases net url with
  | none => exact noSave_cons h (fun d => by simp)
  | some body =>
    exact noSave_cons (noSave_cons h (fun d => by simp)) (fun d => by simp)

theorem noSave_download_if_needed (net : Net) (url : List Char) (zf : Path)
    (w : World) (h : noSave w.events) :
    noSave (WikiConfig.download_if_needed net url zf w).2.events := by
  simp only [WikiConfig.download_if_needed]
  split
  · exact h
  · exact noSave_download_file net url zf w h

theorem noSave_unzipLoop (dest : Path) (es : List ZipEntry) :
    ∀ w : World, noSave w.events → noSave (unzipLoop dest es w).events := by
  induction es with
  | nil => exact fun w h => h
  | cons e es ih =>
    intro w h
    simp only [unzipLoop]
    split
    · split
      · exact h
      · exact ih _ (noSave_createDirAll _ _ h)
    · split
      · exact ih _ (noSave_writeFile _ _ h)
      · exact ih _ (noSave_writeFile _ _ (noSave_createDirAll _ _ h))

theorem noSave_unzip (zc : ArchiveContents) (zf dest : Path) (w : World)
    (h : noSave w.events) :
    noSave (WikiConfig.unzip zc zf dest w).2.events := by
  simp only [WikiConfig.unzip]
  cases zc zf with
  | nil => exact h
  | cons e0 es => exact noSave_unzipLoop dest (e0 :: es) w h

theorem noSave_unpackTarAux (dest : Path) (l : List ZipEntry) :
    ∀ w : World, noSave w.events →
      noSave (l.foldl
        (fun w e =>
          if e.isDir then createDirAll (dest ++ e.path) w
          else writeFile (dest ++ e.path) w) w).events := by
  induction l with
  | nil => exact fun w h => h
  | cons e es ih =>
    intro w h
    simp only [List.foldl_cons]
    split
    · exact ih _ (noSave_createDirAll _ _ h)
    · exact ih _ (noSave_writeFile _ _ h)

theorem noSave_unpackTar (zc : ArchiveContents) (archive dest : Path)
    (w : World) (h : noSave w.events) :
    noSave (unpackTar zc archive dest w).events :=
  noSave_unpackTarAux dest (zc archive) w h

theorem noSave_download_node (os : Os) (net : Net) (c : WikiConfig)
    (w : World) (h : noSave w.events) :
    noSave (WikiConfig.download_node os net c w).2.2.events := by
  simp only [WikiConfig.download_node]
  split
  · exact h
  · split
    next e w' heq =>
      have h2 := noSave_download_file net (nodeUrl os)
        (c.canonical_dir ++ [nodeArchiveName os]) w h
      rw [heq] at h2
      exact h2
    next u w' heq =>
      have h2 := noSave_download_file net (nodeUrl os)
        (c.canonical_dir ++ [nodeArchiveName os]) w h
      rw [heq] at h2
      exact h2

theorem noSave_extract_node (zc : ArchiveContents) (c : WikiConfig)
    (w : World) (h : noSave w.events) :
    noSave (WikiConfig.extract_node zc c w).2.2.events := by
  simp only [WikiConfig.extract_node]
  split
  · exact h
  · next p hp =>
    split
    · exact noSave_unpackTar zc p c.canonical_dir w h
    · split
      · split
        next e w' heq =>
          have h2 := noSave_unzip zc p c.canonical_dir w h
          rw [heq] at h2
          exact h2
        next root w' heq =>
          have h2 := noSave_unzip zc p c.canonical_dir w h
          rw [heq] at h2
          exact h2
      · exact h

theorem noSave_download_wiki (net : Net) (c : WikiConfig) (w : World)
    (h : noSave w.events) :
    noSave (WikiConfig.download_wiki net c w).2.events := by
  simp only [WikiConfig.download_wiki]
  split
  next u1 z1 hu1 hz1 =>
    split
    next e w1 heq1 =>
      have h1 := noSave_download_if_needed net u1 z1 w h
      rw [heq1] at h1
      exact h1
    next u w1 heq1 =>
      have h1 := noSave_download_if_needed net u1 z1 w h
      rw [heq1] at h1
      split
      next u2 z2 hu2 hz2 =>
        split
        next e w2 heq2 =>
          have h2 := noSave_download_if_needed net u2 z2 w1 h1
          rw [heq2] at h2
          exact h2
        next u w2 heq2 =>
          have h2 := noSave_download_if_needed net u2 z2 w1 h1
          rw [heq2] at h2
          split
          next u3 z3 hu3 hz3 => exact noSave_download_if_needed net u3 z3 w2 h2
          next _ _ => exact h2
      next _ _ => exact h1
  next _ _ => exact h

theorem noSave_extract_wiki (zc : ArchiveContents) (c : WikiConfig)
    (w : World) (h : noSave w.events) :
    noSave (WikiConfig.extract_wiki zc c w).2.events := by
  simp only [WikiConfig.extract_wiki]
  split
  · exact h
  · next z1 hz1 =>
    split
    next e w1 heq1 =>
      have h1 := noSave_unzip zc z1 c.canonical_dir w h
      rw [heq1] at h1
      exact h1
    next r1 w1 heq1 =>
      have h1 := noSave_unzip zc z1 c.canonical_dir w h
      rw [heq1] at h1
      split
      · exact h1
      · next z2 hz2 =>
        split
        next e w2 heq2 =>
          have h2 := noSave_unzip zc z2 c.canonical_dir w1 h1
          rw [heq2] at h2
          exact h2
        next r2 w2 heq2 =>
          have h2 := noSave_unzip zc z2 c.canonical_dir w1 h1
          rw [heq2] at h2
          split
          · exact h2
          · next z3 hz3 =>
            split
            next e w3 heq3 =>
              have h3 := noSave_unzip zc z3 c.canonical_dir w2 h2
              rw [heq3] at h3
              exact h3
            next r3 w3 heq3 =>
              have h3 := noSave_unzip zc z3 c.canonical_dir w2 h2
              rw [heq3] at h3
              exact h3

theorem noSave_run_npm (os : Os) (sp : Subproc) (c : WikiConfig)
    (dir : Path) (args : List String) (w : World) (h : noSave w.events) :
    noSave (WikiConfig.run_npm os sp c dir args w).2.events := by
  simp only [WikiConfig.run_npm]
  split
  · exact h
  · split
    · exact noSave_cons h (fun d => by simp)
    · exact noSave_cons h (fun d => by simp)
    · exact noSave_cons h (fun d => by simp)

theorem noSave_link_dep (os : Os) (sp : Subproc) (c : WikiConfig)
    (dir : Path) (w : World) (h : noSave w.events) :
    noSave (WikiConfig.link_dep os sp c dir w).2.events := by
  simp only [WikiConfig.link_dep]
  split
  next e w1 heq1 =>
    have h1 := noSave_run_npm os sp c dir ["install"] w h
    rw [heq1] at h1
    exact h1
  next u w1 heq1 =>
    have h1 := noSave_run_npm os sp c dir ["install"] w h
    rw [heq1] at h1
    split
    · exact h1
    · next cd hcd => exact noSave_run_npm os sp c dir ["link", pathToStr cd] w1 h1

theorem noSave_install_wiki (os : Os) (sp : Subproc) (c : WikiConfig)
    (w : World) (h : noSave w.events) :
    noSave (WikiConfig.install_wiki os sp c w).2.events := by
  simp only [WikiConfig.install_wiki]
  split
  · exact h
  · split
    · exact h
    · next cd hcd =>
      split
      next e w1 heq1 =>
        have h1 := noSave_link_dep os sp c cd w h
        rw [heq1] at h1
        exact h1
      next u w1 heq1 =>
        have h1 := noSave_link_dep os sp c cd w h
        rw [heq1] at h1
        split
        · exact h1
        · next sd hsd =>
          split
          next e w2 heq2 =>
            have h2 := noSave_link_dep os sp c sd w1 h1
            rw [heq2] at h2
            exact h2
          next u w2 heq2 =>
            have h2 := noSave_link_dep os sp c sd w1 h1
            rw [heq2] at h2
            split
            · exact h2
            · next wd hwd => exact noSave_run_npm os sp c wd ["install"] w2 h2

theorem isPrefixOf_eq_false_of_not {p q : Path} (h : ¬ p <+: q) :
    List.isPrefixOf p q = false := by
  rw [← List.isPrefixOf_iff_prefix] at h
  cases hb : List.isPrefixOf p q
  · rfl
  · exact absurd hb h

theorem isPrefixOf_eq_false_iff {p q : Path} :
    List.isPrefixOf p q = false ↔ ¬ p <+: q := by
  rw [← List.isPrefixOf_iff_prefix]
  cases List.isPrefixOf p q <;> simp

/-! ## Claim theorems -/

/-- C3 (counterexample): the claim says every input with a missing or
empty owner segment fails to parse; but `"/repo"` parses successfully,
producing a `BranchSpec` with an EMPTY owner segment. -/
theorem C3_counterexample :
    Branch.user_repo_branch ⟨"/repo".toList⟩ =
      some ([], "repo".toList, "master".toList) := by decide

/-- C3 (amended): the Branch Spec Resolver fails (panics) exactly when
the repo segment is missing: an input fails to parse IF AND ONLY IF
the part before the first `:` contains no `/` (so `"owner"`, `""` and
`"owner:a/b"` fail, and every input whose pre-colon part has a `/`
parses) — but it does not validate non-emptiness: `"/repo"` and
`"owner/"` parse successfully with an empty owner (resp. repo)
segment. -/
theorem C3_amended_missing_repo_only :
    (∀ ps : List Char,
      Branch.user_repo_branch ⟨ps⟩ = none ↔
        '/' ∉ (splitOnChar ':' ps).headD []) ∧
    Branch.user_repo_branch ⟨"/repo".toList⟩ =
      some ([], "repo".toList, "master".toList) ∧
    Branch.user_repo_branch ⟨"owner/".toList⟩ =
      some ("owner".toList, [], "master".toList) := by
  refine ⟨?_, by decide, by decide⟩
  intro ps
  constructor
  · intro hnone hmem
    have h2 := two_le_length_splitOnChar_of_mem hmem
    rcases hsp : splitOnChar '/' ((splitOnChar ':' ps).headD []) with
      _ | ⟨a, _ | ⟨b, rest⟩⟩
    · exact absurd hsp (splitOnChar_ne_nil _ _)
    · rw [hsp] at h2
      simp at h2
    · simp only [Branch.user_repo_branch] at hnone
      rw [hsp] at hnone
      exact Option.noConfusion hnone
  · intro hmem
    simp only [Branch.user_repo_branch]
    rw [splitOnChar_of_not_mem hmem]

/-- C3 (witness for the amended theorem): `"owner:a/b"` — whose
pre-colon part `"owner"` has no `/`, though the whole string does —
fails to parse. -/
theorem C3_amended_witness :
    Branch.user_repo_branch ⟨"owner:a/b".toList⟩ = none :=
  (C3_amended_missing_repo_only.1 ("owner:a/b".toList)).mpr (by decide)

/-- C4: for well-formed specs `owner/repo` and `owner/repo:branch`
(segments free of `/` and `:`), the resolver defaults the branch to
`master` when absent and derives archive URL
`https://github.com/<owner>/<repo>/archive/<branch>.zip`, extraction
directory `<repo>-<branch>` and archive file `<repo>-<branch>.zip`;
in particular `owner/repo` gives directory `repo-master` and
`owner/repo:x` gives a URL ending in `/archive/x.zip`. -/
theorem C4_resolver_outputs (user repo br : List Char)
    (hu1 : ':' ∉ user) (hu2 : '/' ∉ user)
    (hr1 : ':' ∉ repo) (hr2 : '/' ∉ repo)
    (hb : ':' ∉ br) :
    Branch.user_repo_branch ⟨user ++ '/' :: repo⟩ =
        some (user, repo, "master".toList) ∧
    Branch.dirName ⟨user ++ '/' :: repo⟩ =
        some (repo ++ '-' :: "master".toList) ∧
    Branch.zipName ⟨user ++ '/' :: repo⟩ =
        some (repo ++ '-' :: "master".toList ++ ".zip".toList) ∧
    Branch.url ⟨user ++ '/' :: repo⟩ =
        some ("https://github.com/".toList ++ user ++ '/' :: repo ++
          "/archive/".toList ++ "master".toList ++ ".zip".toList) ∧
    Branch.user_repo_branch ⟨user ++ '/' :: repo ++ ':' :: br⟩ =
        some (user, repo, br) ∧
    Branch.dirName ⟨user ++ '/' :: repo ++ ':' :: br⟩ =
        some (repo ++ '-' :: br) ∧
    Branch.zipName ⟨user ++ '/' :: repo ++ ':' :: br⟩ =
        some (repo ++ '-' :: br ++ ".zip".toList) ∧
    Branch.url ⟨user ++ '/' :: repo ++ ':' :: br⟩ =
        some ("https://github.com/".toList ++ user ++ '/' :: repo ++
          "/archive/".toList ++ br ++ ".zip".toList) := by
  have hc1 : ':' ∉ user ++ '/' :: repo := by
    intro h
    rcases List.mem_append.mp h with h | h
    · exact hu1 h
    · rcases List.mem_cons.mp h with h | h
      · exact absurd h (by decide)
      · exact hr1 h
  have hs1 : splitOnChar '/' (user ++ '/' :: repo) = user :: [repo] := by
    rw [splitOnChar_append repo hu2, splitOnChar_of_not_mem hr2]
  have hurb1 : Branch.user_repo_branch ⟨user ++ '/' :: repo⟩ =
      some (user, repo, "master".toList) := by
    simp only [Branch.user_repo_branch]
    rw [splitOnChar_of_not_mem hc1]
    simp only [List.headD_cons]
    rw [hs1]
  have hurb2 : Branch.user_repo_branch ⟨user ++ '/' :: repo ++ ':' :: br⟩ =
      some (user, repo, br) := by
    simp only [Branch.user_repo_branch]
    rw [splitOnChar_append br hc1, splitOnChar_of_not_mem hb]
    simp only [List.headD_cons]
    rw [hs1]
  refine ⟨hurb1, ?_, ?_, ?_, hurb2, ?_, ?_, ?_⟩
  · rw [Branch.dirName, hurb1]; rfl
  · rw [Branch.zipName, hurb1]; rfl
  · rw [Branch.url, hurb1]; rfl
  · rw [Branch.dirName, hurb2]; rfl
  · rw [Branch.zipName, hurb2]; rfl
  · rw [Branch.url, hurb2]; rfl

/-- C4 (witness): `fedwiki/wiki` resolves to extraction directory
`wiki-master`. -/
theorem C4_witness :
    Branch.dirName ⟨"fedwiki".toList ++ '/' :: "wiki".toList⟩ =
      some ("wiki".toList ++ '-' :: "master".toList) :=
  (C4_resolver_outputs ("fedwiki".toList) ("wiki".toList) ("x".toList)
    (by decide) (by decide) (by decide) (by decide) (by decide)).2.1

/-- C9: every sitemap successfully fetched and parsed has its entry
list sorted by non-increasing date (most recent first). -/
theorem C9_sitemap_sorted_desc (net : List Char → Option (List Entry))
    (url : List Char) (s : Sitemap)
    (h : Sitemap.from_url net url = .ok s) :
    s.entries.Pairwise (fun a b => b.date ≤ a.date) := by
  unfold Sitemap.from_url at h
  cases hnet : net (url ++ "/system/sitemap.json".toList) with
  | none => rw [hnet] at h; exact absurd h (by simp)
  | some raw =>
    rw [hnet] at h
    injection h with h
    rw [← h]
    simp only []
    have hsorted := pairwise_sortByDate raw
    exact List.pairwise_reverse.mpr (hsorted.imp fun hab => hab)

/-- C9 (witness): a sitemap fetched from a two-entry feed in
ascending order comes back most-recent-first. -/
theorem C9_witness :
    List.Pairwise (fun a b => b.date ≤ a.date) [entryB, entryA] :=
  C9_sitemap_sorted_desc netC9 ("http://x".toList)
    ⟨"http://x".toList, [entryB, entryA]⟩ rfl

/-- C1 (counterexample): the claim says a non-zero subprocess exit
status is a fatal error; but with an oracle on which every child exits
with status 1, `run_npm` returns `Ok(())` — the exit status returned
by `wait()` is dropped. -/
theorem C1_counterexample :
    (WikiConfig.run_npm Os.linux spExit1 cfgNodeOnly
        ["root", "wiki-master"] ["install"] emptyWorld).1 = Except.ok () ∧
    spExit1 ["root", "nodedir", "npm"]
        ["--scripts-prepend-node-path=true", "install"]
        ["root", "wiki-master"] = SpawnOutcome.exited 1 :=
  ⟨rfl, rfl⟩

/-- C1 (amended): each dependency-linker step fails fatally when the
package-manager subprocess fails to spawn (or cannot be waited on),
but the child's exit status is never inspected: `run_npm` succeeds iff
the child spawned and was waited on, whatever its exit code. -/
theorem C1_amended_ok_iff_spawned (os : Os) (sp : Subproc) (c : WikiConfig)
    (np : Path) (dir : Path) (args : List String) (w : World)
    (h : c.node.path = some np) :
    (WikiConfig.run_npm os sp c dir args w).1 = Except.ok () ↔
      (∃ code, sp (c.canonical_dir ++ np ++ [npmName os])
        ("--scripts-prepend-node-path=true" :: args) dir =
          SpawnOutcome.exited code) := by
  simp only [WikiConfig.run_npm, h]
  cases hsp : sp (c.canonical_dir ++ np ++ [npmName os])
      ("--scripts-prepend-node-path=true" :: args) dir with
  | spawnFail => simp
  | waitFail => simp
  | exited code => simp

/-- C1 (witness for the amended theorem): on the exit-status-1 oracle
the step both spawned and returned success. -/
theorem C1_amended_witness :
    (WikiConfig.run_npm Os.linux spExit1 cfgNodeOnly
        ["d"] ["install"] emptyWorld).1 = Except.ok () ↔
      (∃ code, spExit1 (cfgNodeOnly.canonical_dir ++ ["nodedir"] ++ [npmName Os.linux])
        ("--scripts-prepend-node-path=true" :: ["install"]) ["d"] =
          SpawnOutcome.exited code) :=
  C1_amended_ok_iff_spawned Os.linux spExit1 cfgNodeOnly ["nodedir"]
    ["d"] ["install"] emptyWorld rfl

/-- C5: if the destination file already exists the Fetcher returns
success without any network call or write (the world is unchanged);
consequently, after a successful call the same call is a no-op and the
two calls together performed at most one network call. -/
theorem C5_fetcher_idempotent (net : Net) (url : List Char) (zf : Path)
    (w : World) :
    (pExists w.fs zf = true →
      WikiConfig.download_if_needed net url zf w = (Except.ok (), w)) ∧
    (∀ w1, WikiConfig.download_if_needed net url zf w = (Except.ok (), w1) →
      WikiConfig.download_if_needed net url zf w1 = (Except.ok (), w1) ∧
      netCount w1.events ≤ netCount w.events + 1) := by
  constructor
  · intro hp
    rw [WikiConfig.download_if_needed, if_pos hp]
  · intro w1 h
    by_cases hp : pExists w.fs zf = true
    · rw [WikiConfig.download_if_needed, if_pos hp] at h
      have hw1 : w = w1 := congrArg Prod.snd h
      subst hw1
      exact ⟨by rw [WikiConfig.download_if_needed, if_pos hp], Nat.le_succ _⟩
    · rw [WikiConfig.download_if_needed, if_neg hp] at h
      simp only [WikiConfig.download_file] at h
      cases hnet : net url with
      | none => rw [hnet] at h; exact absurd h (by simp)
      | some body =>
        rw [hnet] at h
        have hw1 : writeFile zf { w with events := .netGet url :: w.events } = w1 :=
          congrArg Prod.snd h
        subst hw1
        constructor
        · have hex : pExists (writeFile zf
              { w with events := .netGet url :: w.events }).fs zf = true := by
            simp [pExists, writeFile, List.isPrefixOf_iff_prefix]
          rw [WikiConfig.download_if_needed, if_pos hex]
        · simp [netCount, writeFile, List.filter_cons]

/-- C5 (witness): a second fetch of `u` to `z` right after a
successful first fetch is a no-op, and the pair of calls issued at
most one GET. -/
theorem C5_witness :
    WikiConfig.download_if_needed netOkEmpty ("u".toList) ["z"] worldAfterFetch =
      (Except.ok (), worldAfterFetch) ∧
    netCount worldAfterFetch.events ≤ netCount emptyWorld.events + 1 :=
  (C5_fetcher_idempotent netOkEmpty ("u".toList) ["z"] emptyWorld).2
    worldAfterFetch rfl

/-- C6 (counterexample): the claim says extraction is skipped entirely
(no writes) whenever the first entry's sanitized name already exists
under the destination; but for an archive whose first entry is a FILE
(`a.txt`), the existing file is rewritten — the skip check only fires
on directory entries. -/
theorem C6_counterexample :
    (WikiConfig.unzip zcFileFirst ["z.zip"] ["d"] worldC6).1 =
      Except.ok ["a.txt"] ∧
    (WikiConfig.unzip zcFileFirst ["z.zip"] ["d"] worldC6).2.events =
      [Event.fsWrite ["d", "a.txt"]] :=
  ⟨rfl, rfl⟩

/-- C6 (amended): for every zip archive whose FIRST entry is a
directory entry whose sanitized name already exists under the
destination directory, extraction performs no filesystem writes at all
(the world is unchanged) and the extractor still returns the first
entry's sanitized name.  (For archives whose first entry is a file,
the file is rewritten regardless.) -/
theorem C6_amended_dir_first_skip (zc : ArchiveContents) (zf dest : Path)
    (w : World) (e0 : ZipEntry) (es : List ZipEntry)
    (h : zc zf = e0 :: es) (hdir : e0.isDir = true)
    (hex : pExists w.fs (dest ++ e0.path) = true) :
    WikiConfig.unzip zc zf dest w = (Except.ok e0.path, w) := by
  simp only [WikiConfig.unzip, h]
  rw [unzipLoop]
  simp only [hdir, if_true]
  rw [if_pos hex]

/-- C6 (witness for the amended theorem): extracting an archive rooted
at directory `r` into a destination already holding `d/r` changes
nothing and still returns `r`. -/
theorem C6_witness :
    WikiConfig.unzip zcDirFirst ["z.zip"] ["d"] worldC6b =
      (Except.ok ["r"], worldC6b) :=
  C6_amended_dir_first_skip zcDirFirst ["z.zip"] ["d"] worldC6b
    ⟨["r"], true⟩ [] rfl rfl rfl

/-- C8: runtime-only teardown always succeeds, removes at most the
recorded runtime directory (every surviving entry was already there,
and every entry not under the recorded path survives — in particular
bundle directories and the persisted document), performs no writes
(the trace grows by at most one removal event), and deletes nothing
when no runtime path is recorded or the recorded path does not
exist. -/
theorem C8_delete_node_frame (c : WikiConfig) (w : World) :
    (WikiConfig.delete_node c w).1 = Except.ok () ∧
    (∀ e ∈ (WikiConfig.delete_node c w).2.fs, e ∈ w.fs) ∧
    (c.node.path = none → (WikiConfig.delete_node c w).2 = w) ∧
    (∀ np, c.node.path = some np → pExists w.fs np = false →
      (WikiConfig.delete_node c w).2 = w) ∧
    (∀ np, c.node.path = some np →
      ∀ e ∈ w.fs, ¬ np <+: e.path → e ∈ (WikiConfig.delete_node c w).2.fs) ∧
    ((WikiConfig.delete_node c w).2.events = w.events ∨
      ∃ np, c.node.path = some np ∧
        (WikiConfig.delete_node c w).2.events = Event.rmDir np :: w.events) := by
  rcases hnp : c.node.path with _ | np
  · simp [WikiConfig.delete_node, hnp]
  · simp only [WikiConfig.delete_node, hnp]
    by_cases hex : pExists w.fs np = true
    · rw [if_pos hex]
      refine ⟨rfl, ?_, ?_, ?_, ?_, Or.inr ⟨np, rfl, rfl⟩⟩
      · intro e he
        simp only [removeDirAll, List.mem_filter] at he
        exact he.1
      · intro hnone
        exact absurd hnone (by simp)
      · intro np' hsome hfalse
        injection hsome with hsome
        subst hsome
        rw [hfalse] at hex
        exact absurd hex (by simp)
      · intro np' hsome e he hpre
        injection hsome with hsome
        subst hsome
        simp only [removeDirAll, List.mem_filter]
        exact ⟨he, by simp [isPrefixOf_eq_false_of_not hpre]⟩
    · rw [if_neg hex]
      exact ⟨rfl, fun e he => he, fun _ => rfl, fun _ _ _ => rfl,
        fun np' hsome e he _ => he, Or.inl rfl⟩

/-- C8 (witness): with runtime path `nd` recorded, teardown keeps the
bundle directory `root/wiki-master`. -/
theorem C8_witness :
    FSEntry.mk ["root", "wiki-master"] true ∈
      (WikiConfig.delete_node cfgC8 worldC8).2.fs :=
  ((C8_delete_node_frame cfgC8 worldC8).2.2.2.2.1) ["nd"] rfl
    ⟨["root", "wiki-master"], true⟩ (by decide) (by decide)

/-- C10: full-install teardown always succeeds; when the persisted
document `config.yaml` is absent from the target directory the
filesystem (and trace) are left unchanged; when it is present exactly
the entries under the target root are removed. -/
theorem C10_delete_requires_doc (c : WikiConfig) (w : World) :
    (WikiConfig.delete c w).1 = Except.ok () ∧
    (c.configExists w = false → (WikiConfig.delete c w).2 = w) ∧
    (c.configExists w = true →
      ∀ e, e ∈ (WikiConfig.delete c w).2.fs ↔
        (e ∈ w.fs ∧ ¬ c.canonical_dir <+: e.path)) := by
  by_cases hex : c.configExists w = true
  · simp only [WikiConfig.delete]
    rw [if_pos hex]
    refine ⟨rfl, ?_, ?_⟩
    · intro hfalse
      rw [hex] at hfalse
      exact absurd hfalse (by simp)
    · intro _ e
      simp [removeDirAll, List.mem_filter, isPrefixOf_eq_false_iff]
  · simp only [WikiConfig.delete]
    rw [if_neg hex]
    exact ⟨rfl, fun _ => rfl, fun h => absurd h hex⟩

/-- C10 (witness): deleting an install from a partially provisioned
directory that has no persisted document changes nothing. -/
theorem C10_witness :
    (WikiConfig.delete cfgFresh worldC10).2 = worldC10 :=
  (C10_delete_requires_doc cfgFresh worldC10).2.1 rfl

/-- C2 (code bug): the claim requires that on every supported
platform — including the compressed-tar Linux path — a successful
fresh create records a non-empty extracted runtime path and persists
it.  On Linux the `.tar.xz` branch of `extract_node` unpacks the
runtime but never assigns `node.path` (only the `.zip` branch does),
so after downloading (which does record the source URL) the create
sequence aborts at `install_wiki`'s own "Node installation not found"
guard (`exit(1)`), the extracted path stays `none`, and no document is
persisted at all. -/
theorem C2_bug :
    (WikiConfig.create_wiki Os.linux netOkEmpty zcOneDir spExit0
        cfgFresh emptyWorld).1 = Except.error Err.nodeNotFound ∧
    (WikiConfig.create_wiki Os.linux netOkEmpty zcOneDir spExit0
        cfgFresh emptyWorld).2.1.node.url = some (nodeUrl Os.linux) ∧
    (WikiConfig.create_wiki Os.linux netOkEmpty zcOneDir spExit0
        cfgFresh emptyWorld).2.1.node.path = none ∧
    hasSaveEvent (WikiConfig.create_wiki Os.linux netOkEmpty zcOneDir spExit0
        cfgFresh emptyWorld).2.2.events = false :=
  ⟨rfl, rfl, rfl, rfl⟩

/-- C7: the persisted document is written only after every prior step
of the create sequence (create root directory, provision runtime,
provision bundles, dependency linking) has succeeded: starting from an
empty trace, a failing run records no persistence event at all, and on
a successful run the last recorded event is exactly the persistence of
the final install state. -/
theorem C7_persist_only_on_success (os : Os) (net : Net)
    (zc : ArchiveContents) (sp : Subproc) (c : WikiConfig) (w : World)
    (hw : w.events = []) :
    ∀ r c' w', WikiConfig.create_wiki os net zc sp c w = (r, c', w') →
      ((∃ e, r = Except.error e) → ∀ d, Event.saveDoc d ∉ w'.events) ∧
      (r = Except.ok () → w'.events.head? = some (Event.saveDoc c')) := by
  intro r c' w' hrun
  have h0 : noSave w.events := by rw [hw]; exact noSave_nil
  have h1 : noSave (createDirAll c.canonical_dir w).events :=
    noSave_createDirAll _ _ h0
  simp only [WikiConfig.create_wiki, WikiConfig.create_folder] at hrun
  split at hrun
  next e1 c1 w1 heq1 =>
    injection hrun with hr hrest
    injection hrest with hc hw'
    subst hr hc hw'
    refine ⟨fun _ d => ?_, fun hok => Except.noConfusion hok⟩
    have h2 := noSave_download_node os net c (createDirAll c.canonical_dir w) h1
    rw [heq1] at h2
    exact h2 d
  next u1 c1 w1 heq1 =>
    have h2 : noSave w1.events := by
      have := noSave_download_node os net c (createDirAll c.canonical_dir w) h1
      rw [heq1] at this
      exact this
    split at hrun
    next e2 c2 w2 heq2 =>
      injection hrun with hr hrest
      injection hrest with hc hw'
      subst hr hc hw'
      refine ⟨fun _ d => ?_, fun hok => Except.noConfusion hok⟩
      have h3 := noSave_extract_node zc c1 w1 h2
      rw [heq2] at h3
      exact h3 d
    next u2 c2 w2 heq2 =>
      have h3 : noSave w2.events := by
        have := noSave_extract_node zc c1 w1 h2
        rw [heq2] at this
        exact this
      split at hrun
      next e3 w3 heq3 =>
        injection hrun with hr hrest
        injection hrest with hc hw'
        subst hr hc hw'
        refine ⟨fun _ d => ?_, fun hok => Except.noConfusion hok⟩
        have h4 := noSave_download_wiki net c2 w2 h3
        rw [heq3] at h4
        exact h4 d
      next u3 w3 heq3 =>
        have h4 : noSave w3.events := by
          have := noSave_download_wiki net c2 w2 h3
          rw [heq3] at this
          exact this
        split at hrun
        next e4 w4 heq4 =>
          injection hrun with hr hrest
          injection hrest with hc hw'
          subst hr hc hw'
          refine ⟨fun _ d => ?_, fun hok => Except.noConfusion hok⟩
          have h5 := noSave_extract_wiki zc c2 w3 h4
          rw [heq4] at h5
          exact h5 d
        next u4 w4 heq4 =>
          have h5 : noSave w4.events := by
            have := noSave_extract_wiki zc c2 w3 h4
            rw [heq4] at this
            exact this
          split at hrun
          next e5 w5 heq5 =>
            injection hrun with hr hrest
            injection hrest with hc hw'
            subst hr hc hw'
            refine ⟨fun _ d => ?_, fun hok => Except.noConfusion hok⟩
            have h6 := noSave_install_wiki os sp c2 w4 h5
            rw [heq5] at h6
            exact h6 d
          next u5 w5 heq5 =>
            simp only [WikiConfig.save] at hrun
            injection hrun with hr hrest
            injection hrest with hc hw'
            subst hr hc hw'
            refine ⟨fun hab => ?_, fun _ => rfl⟩
            obtain ⟨e, habs⟩ := hab
            exact Except.noConfusion habs

/-- C7 (witness): a fully successful Windows-platform run from an
empty world satisfies both parts of the conclusion. -/
theorem C7_witness :
    ((∃ e, (WikiConfig.create_wiki Os.windows netOkEmpty zcOneDir spExit0
        cfgFresh emptyWorld).1 = Except.error e) →
      ∀ d, Event.saveDoc d ∉ (WikiConfig.create_wiki Os.windows netOkEmpty
        zcOneDir spExit0 cfgFresh emptyWorld).2.2.events) ∧
    ((WikiConfig.create_wiki Os.windows netOkEmpty zcOneDir spExit0
        cfgFresh emptyWorld).1 = Except.ok () →
      (WikiConfig.create_wiki Os.windows netOkEmpty zcOneDir spExit0
        cfgFresh emptyWorld).2.2.events.head? =
        some (Event.saveDoc (WikiConfig.create_wiki Os.windows netOkEmpty
          zcOneDir spExit0 cfgFresh emptyWorld).2.1)) :=
  C7_persist_only_on_success Os.windows netOkEmpty zcOneDir spExit0
    cfgFresh emptyWorld rfl _ _ _ rfl

end WikiRust
